import Mathlib

/-!
Verification of the core of the subscription-automation system:
the Naver search client (`src/api/subscription_with_naver.py`) and the
daily scheduler (`src/utils/scheduler.py`), shallowly embedded in Lean.

Network responses are supplied as explicit oracle values (one entry per
physical attempt, or one per query), clock time is an explicit rational
parameter, and the Python exception flow is made explicit with `Except`.
-/

namespace SubscriptionSystem

/-- One parsed search-result item from the upstream JSON `items` array
(`{title, description, link, pubDate}`). -/
structure NewsItem where
  title : String
  description : String
  link : String
  pubDate : String
deriving Repr, DecidableEq

/-- A parsed JSON response body.  `items = none` models a JSON object
without an `'items'` key (the code checks `'items' in result`). -/
structure ApiBody where
  items : Option (List NewsItem)
deriving Repr, DecidableEq

/-- The outcome of one physical HTTP attempt, as classified by
`_make_api_request`: a response with a status code and body, a
`requests.exceptions.Timeout`, or another `RequestException`. -/
inductive Attempt where
  | response (status : Nat) (body : ApiBody)
  | timeout
  | requestError
deriving Repr, DecidableEq

/-- `self.min_delay = 0.5` (seconds). -/
def min_delay : ℚ := 1/2

/-- `self.max_retries = 3`. -/
def max_retries : Nat := 3

/-- `self.backoff_factor = 2`. -/
def backoff_factor : ℚ := 2

/-- The delay slept after a 429 response on attempt `attempt` (0-based):
`retry_delay = min(self.min_delay * (self.backoff_factor ** attempt), 30.0)`. -/
def retryDelay429 (attempt : Nat) : ℚ :=
  min (min_delay * backoff_factor ^ attempt) 30

/-- The `for attempt in range(self.max_retries)` loop of `_make_api_request`,
over the list of remaining attempt indices.  `endpoint i` is the outcome of
physical attempt `i`.  Returns the value returned by the Python function
(`Option ApiBody`), the number of physical attempts performed, and the list
of back-off sleeps (seconds) taken between attempts.

- status 200: return the parsed body immediately;
- status 429: sleep `retryDelay429 attempt` and continue;
- other status: return `None` on the last attempt, else sleep 1.0 and continue;
- timeout: sleep 2.0 and continue unless on the last attempt;
- other request error: sleep 1.0 and continue unless on the last attempt;
- loop exhausted: return `None`. -/
def make_api_request_loop (endpoint : Nat → Attempt) :
    List Nat → Option ApiBody × Nat × List ℚ
  | [] => (none, 0, [])
  | attempt :: rest =>
    match endpoint attempt with
    | .response status body =>
      if status = 200 then
        (some body, 1, [])
      else if status = 429 then
        let r := make_api_request_loop endpoint rest
        (r.1, r.2.1 + 1, retryDelay429 attempt :: r.2.2)
      else if attempt = max_retries - 1 then
        (none, 1, [])
      else
        let r := make_api_request_loop endpoint rest
        (r.1, r.2.1 + 1, (1 : ℚ) :: r.2.2)
    | .timeout =>
      if attempt < max_retries - 1 then
        let r := make_api_request_loop endpoint rest
        (r.1, r.2.1 + 1, (2 : ℚ) :: r.2.2)
      else
        (none, 1, [])
    | .requestError =>
      if attempt < max_retries - 1 then
        let r := make_api_request_loop endpoint rest
        (r.1, r.2.1 + 1, (1 : ℚ) :: r.2.2)
      else
        (none, 1, [])

/-- `_make_api_request(url, params)`: run the attempt loop for
`range(max_retries)` attempts. -/
def make_api_request (endpoint : Nat → Attempt) : Option ApiBody × Nat × List ℚ :=
  make_api_request_loop endpoint (List.range max_retries)

/-- `search_naver_news(query, display)` (and identically
`search_naver_blog`): if the request produced a result containing an
`'items'` key, return the items list, else return `[]`. -/
def search_naver_news (apiResult : Option ApiBody) : List NewsItem :=
  match apiResult with
  | some body =>
    match body.items with
    | some items => items
    | none => []
  | none => []

/-- `search_naver_blog(query, display)`: same body as `search_naver_news`
against the blog endpoint. -/
def search_naver_blog (apiResult : Option ApiBody) : List NewsItem :=
  match apiResult with
  | some body =>
    match body.items with
    | some items => items
    | none => []
  | none => []

/-- The link-based deduplication loop shared by `search_related_news` and
`search_market_trends`: an item is kept iff its link is non-empty
(`if link and ...`; a missing `'link'` key yields `''` via `news.get`)
and has not been seen before; `seen` accumulates the admitted links. -/
def dedupByLink (seen : List String) : List NewsItem → List NewsItem
  | [] => []
  | news :: rest =>
    if news.link ≠ "" ∧ news.link ∉ seen then
      news :: dedupByLink (news.link :: seen) rest
    else
      dedupByLink seen rest

/-- `search_related_news(keyword, region)`: for each of the three fixed
keywords, call `search_naver_news` (its network result is the corresponding
oracle entry), concatenate all results in query order (`all_news.extend`),
deduplicate by link, and return at most the first 15 items
(`unique_news[:15]`).  No sort is applied to the merged list. -/
def search_related_news (apiResults : List (Option ApiBody)) : List NewsItem :=
  let all_news := (apiResults.map search_naver_news).flatten
  let unique_news := dedupByLink [] all_news
  unique_news.take 15

/-- Strip the inline emphasis markup the upstream API wraps around matched
substrings: `.replace('<b>', '').replace('</b>', '')`. -/
def stripTags (s : String) : String :=
  (s.replace "<b>" "").replace "</b>" ""

/-- The fixed candidate vocabulary scanned by `search_market_trends`. -/
def keyword_candidates : List String :=
  ["분양", "청약", "부동산", "아파트", "시세", "가격",
   "투자", "전세", "매매", "경쟁률", "당첨", "공급",
   "입주", "계약", "분양권", "신축", "재건축", "재개발"]

/-- The keyword scan of `search_market_trends`: for every admitted item,
lowercase the tag-stripped `title description` text and add every candidate
that occurs in it (`if candidate in content`) to the keyword set.  The
Python `set` iterates in an unspecified order; we record keywords in first-
found order, which no claim depends on. -/
def extract_market_keywords (items : List NewsItem) : List String :=
  items.foldl (fun acc item =>
    let content := (stripTags item.title ++ " " ++ stripTags item.description).toLower
    keyword_candidates.foldl (fun acc2 candidate =>
      if content.containsSubstr candidate.toSubstring ∧ candidate ∉ acc2 then
        acc2 ++ [candidate]
      else acc2) acc) []

/-- The `trends_data` dictionary built by `search_market_trends`.
`error = none` models the absence of the `'error'` key, which is added only
in the `except` fallback. -/
structure TrendsData where
  news_count : Nat
  blog_count : Nat
  market_keywords : List String
  latest_news : List NewsItem
  error : Option String
deriving Repr, DecidableEq

/-- `search_market_trends(region)`: for each fixed keyword search news and
blogs (oracle entries supply the network results), deduplicate each pool by
link, and assemble the report.  A failed request surfaces as `none` from the
retrying client, making the per-query item list empty — no exception is
raised, so the `except` branch (the only place the `'error'` key is set)
is not taken. -/
def search_market_trends (newsApi blogApi : List (Option ApiBody)) : TrendsData :=
  let all_news := (newsApi.map search_naver_news).flatten
  let all_blogs := (blogApi.map search_naver_blog).flatten
  let unique_news := dedupByLink [] all_news
  let unique_blogs := dedupByLink [] all_blogs
  { news_count := unique_news.length
    blog_count := unique_blogs.length
    latest_news := unique_news.take 5
    market_keywords := (extract_market_keywords (unique_news ++ unique_blogs)).take 10
    error := none }

/-! ### Rate limiter (`_wait_for_rate_limit`) -/

/-- The mutable rate-limiting state: `self.last_call_time`. -/
structure RateState where
  last_call_time : ℚ
deriving Repr, DecidableEq

/-- `_wait_for_rate_limit()` with an explicit clock: `now` is `time.time()`
at entry and `jitter` the value drawn from `random.uniform(0.1, 0.3)`.
If less than `min_delay` has elapsed since the last recorded call, sleep the
remaining time plus the jitter; then record `last_call_time = time.time()`
(the clock after sleeping).  Returns the new state and the completion time. -/
def wait_for_rate_limit (s : RateState) (now jitter : ℚ) : RateState × ℚ :=
  let time_since_last_call := now - s.last_call_time
  if time_since_last_call < min_delay then
    let sleep_time := min_delay - time_since_last_call
    let total_sleep := sleep_time + jitter
    let done := now + total_sleep
    (⟨done⟩, done)
  else
    (⟨now⟩, now)

/-- A back-to-back run of calls to the rate limiter.  `t` is the completion
time of the previous call; each list entry `(idle, jitter)` says the caller
re-enters `idle ≥ 0` seconds after the previous completion, with jitter
`jitter`.  Returns the completion times of all calls in order. -/
def run_rate_limiter (s : RateState) (t : ℚ) : List (ℚ × ℚ) → List ℚ
  | [] => []
  | (idle, jitter) :: rest =>
    let r := wait_for_rate_limit s (t + idle) jitter
    r.2 :: run_rate_limiter r.1 r.2 rest

/-! ### Scheduler (`src/utils/scheduler.py`) -/

/-- A time of day, as Python's `datetime.time` restricted to what the
scheduler reads (hour and minute). -/
structure TimeOfDay where
  hour : Nat
  minute : Nat
deriving Repr, DecidableEq

/-- `t.hour * 60 + t.minute`, the minute-of-day used by `_should_execute`. -/
def minutesOfDay (t : TimeOfDay) : Nat :=
  t.hour * 60 + t.minute

/-- The scheduler's mutable fields read or written by the loop,
`_should_execute` and `force_execution`.  Dates are abstracted as naturals
(only equality and order of calendar dates matter). -/
structure SchedulerState where
  is_running : Bool
  is_enabled : Bool
  target_time : TimeOfDay
  last_execution_date : Option Nat
deriving Repr, DecidableEq

/-- `_should_execute(current_time, current_date)`: false if the task already
ran today (`last_execution_date == current_date`), else true iff the current
minute-of-day is within ±5 minutes of the target
(`abs(current_minutes - target_minutes) <= 5`). -/
def should_execute (st : SchedulerState) (current_time : TimeOfDay) (current_date : Nat) : Bool :=
  if st.last_execution_date = some current_date then
    false
  else
    decide (((minutesOfDay current_time : Int) - (minutesOfDay st.target_time : Int)).natAbs ≤ 5)

/-- `_execute_scheduled_task()`: invoke `self.target_function()` inside a
`try`/`except Exception` that logs and swallows any exception.  The task is
modelled as its outcome (`Except.error` = it raised).  The result is
`Except.ok (state, invoked)`: the method never lets an exception escape and
assigns no scheduler field; the task is invoked in both cases. -/
def execute_scheduled_task (st : SchedulerState) (task : Except String Unit) :
    Except String (SchedulerState × Bool) :=
  match task with
  | .ok _ => .ok (st, true)
  | .error _ => .ok (st, true)

/-- One iteration of `_scheduler_loop` at clock reading
(`current_date`, `current_time`): inside the loop's own `try`, if enabled
and `_should_execute`, run `_execute_scheduled_task` and then set
`last_execution_date = current_date`; then `stop_event.wait(30)`.  If an
exception escaped to the loop's `except` (impossible for a task exception,
which `_execute_scheduled_task` already caught), it would `time.sleep(60)`.
Returns (new state, task fired, seconds waited before the next poll). -/
def scheduler_loop_step (st : SchedulerState) (current_date : Nat) (current_time : TimeOfDay)
    (task : Except String Unit) : SchedulerState × Bool × Nat :=
  let body : Except String (SchedulerState × Bool) :=
    if st.is_enabled then
      if should_execute st current_time current_date then
        match execute_scheduled_task st task with
        | .ok (st', _) => .ok ({ st' with last_execution_date := some current_date }, true)
        | .error e => .error e
      else
        .ok (st, false)
    else
      .ok (st, false)
  match body with
  | .ok (st', fired) => (st', fired, 30)
  | .error _ => (st, false, 60)

/-- The polling loop run over a finite trace of clock readings
(`datetime.now()` observed once per iteration).  Returns the final state and
the list of dates on which the task fired automatically, in order. -/
def scheduler_loop (st : SchedulerState) (task : Except String Unit) :
    List (Nat × TimeOfDay) → SchedulerState × List Nat
  | [] => (st, [])
  | (d, m) :: rest =>
    let step := scheduler_loop_step st d m task
    let r := scheduler_loop step.1 task rest
    (r.1, if step.2.1 then d :: r.2 else r.2)

/-- `force_execution()`: log the manual request, then call
`_execute_scheduled_task` directly — bypassing `_should_execute`, reading
neither `is_enabled` nor `last_execution_date`, and assigning no field. -/
def force_execution (st : SchedulerState) (task : Except String Unit) :
    Except String (SchedulerState × Bool) :=
  execute_scheduled_task st task

/-! ### Helper lemmas about the deduplication loop -/

/-- Every item admitted by the dedup loop has a link that was not in `seen`
and is non-empty. -/
theorem dedupByLink_mem_link (seen : List String) (l : List NewsItem) (x : NewsItem)
    (hx : x ∈ dedupByLink seen l) : x.link ∉ seen ∧ x.link ≠ "" := by
  induction l generalizing seen with
  | nil => simp [dedupByLink] at hx
  | cons a rest ih =>
    simp only [dedupByLink] at hx
    by_cases h : a.link ≠ "" ∧ a.link ∉ seen
    · rw [if_pos h] at hx
      rcases List.mem_cons.mp hx with rfl | hx'
      · exact ⟨h.2, h.1⟩
      · have h' := ih _ hx'
        exact ⟨fun hs => h'.1 (List.mem_cons_of_mem _ hs), h'.2⟩
    · rw [if_neg h] at hx
      exact ih _ hx

/-- The dedup loop emits at most one item per link value. -/
theorem dedupByLink_pairwise (seen : List String) (l : List NewsItem) :
    (dedupByLink seen l).Pairwise (fun a b => a.link ≠ b.link) := by
  induction l generalizing seen with
  | nil => simp [dedupByLink]
  | cons a rest ih =>
    simp only [dedupByLink]
    by_cases h : a.link ≠ "" ∧ a.link ∉ seen
    · rw [if_pos h]
      refine List.Pairwise.cons (fun b hb heq => ?_) (ih _)
      exact (dedupByLink_mem_link _ _ _ hb).1 (heq ▸ List.mem_cons_self _ _)
    · rw [if_neg h]
      exact ih _

/-- For every item the dedup loop keeps, the kept item is the first item
of the input bearing that link (first occurrence wins). -/
theorem dedupByLink_first_occurrence (seen : List String) (l : List NewsItem) (x : NewsItem)
    (hx : x ∈ dedupByLink seen l) :
    l.find? (fun y => y.link == x.link) = some x := by
  induction l generalizing seen with
  | nil => simp [dedupByLink] at hx
  | cons a rest ih =>
    simp only [dedupByLink] at hx
    by_cases h : a.link ≠ "" ∧ a.link ∉ seen
    · rw [if_pos h] at hx
      rcases List.mem_cons.mp hx with rfl | hx'
      · exact List.find?_cons_of_pos _ (by simp)
      · have hmem := dedupByLink_mem_link _ _ _ hx'
        have hne : ¬ a.link = x.link := fun heq => hmem.1 (heq ▸ List.mem_cons_self _ _)
        rw [List.find?_cons_of_neg _ (by simpa using hne)]
        exact ih _ hx'
    · rw [if_neg h] at hx
      have hmem := dedupByLink_mem_link _ _ _ hx
      have hne : ¬ a.link = x.link := by
        rcases not_and_or.mp h with h1 | h1
        · rw [not_ne_iff] at h1
          exact fun heq => hmem.2 (heq ▸ h1)
        · rw [not_not] at h1
          exact fun heq => hmem.1 (heq ▸ h1)
      rw [List.find?_cons_of_neg _ (by simpa using hne)]
      exact ih _ hx

/-- The dedup loop preserves the relative order of the input: its output is
a sublist of the input. -/
theorem dedupByLink_sublist (seen : List String) (l : List NewsItem) :
    (dedupByLink seen l).Sublist l := by
  induction l generalizing seen with
  | nil => simp [dedupByLink]
  | cons a rest ih =>
    simp only [dedupByLink]
    by_cases h : a.link ≠ "" ∧ a.link ∉ seen
    · rw [if_pos h]
      exact (ih _).cons₂ a
    · rw [if_neg h]
      exact (ih _).cons a

/-! ### Claims about the search aggregation -/

/-- C5: for every sequence of per-query result lists processed in query
order, the merged list of `search_related_news` contains at most one item
per distinct link value, and each retained item is the first item bearing
its link in the concatenation of the per-query results (first occurrence
wins, earlier queries take priority). -/
theorem search_related_news_dedup_first_wins (apiResults : List (Option ApiBody)) :
    (search_related_news apiResults).Pairwise (fun a b => a.link ≠ b.link) ∧
    ∀ x ∈ search_related_news apiResults,
      ((apiResults.map search_naver_news).flatten).find? (fun y => y.link == x.link) = some x := by
  constructor
  · show ((dedupByLink [] ((apiResults.map search_naver_news).flatten)).take 15).Pairwise _
    exact List.Pairwise.sublist (List.take_sublist _ _) (dedupByLink_pairwise [] _)
  · intro x hx
    have hx' : x ∈ dedupByLink [] ((apiResults.map search_naver_news).flatten) :=
      List.mem_of_mem_take hx
    exact dedupByLink_first_occurrence [] _ _ hx'

/-- The spec's dedup example: query "A" returns links x then y, query "B"
returns links y then z. -/
def itemAx : NewsItem := ⟨"titleA1", "descA1", "x", "p1"⟩

def itemAy : NewsItem := ⟨"titleA2", "descA2", "y", "p2"⟩

def itemBy : NewsItem := ⟨"titleB1", "descB1", "y", "p3"⟩

def itemBz : NewsItem := ⟨"titleB2", "descB2", "z", "p4"⟩

def exApiC5 : List (Option ApiBody) :=
  [some ⟨some [itemAx, itemAy]⟩, some ⟨some [itemBy, itemBz]⟩]

/-- C5 witness: on the spec's example, the item retained for link "y" is
query "A"'s version. -/
theorem search_related_news_dedup_first_wins_witness :
    ((exApiC5.map search_naver_news).flatten).find? (fun y => y.link == itemAy.link)
      = some itemAy :=
  (search_related_news_dedup_first_wins exApiC5).2 itemAy (by decide)

/-- C10: items whose link is missing (modelled as `""`, the value
`news.get('link', '')` yields) or empty are silently discarded by the
deduplication, while `search_naver_news` itself returns them untouched:
every item in the merged output of `search_related_news`, in any dedup
output, and in the `latest_news` of `search_market_trends` has a non-empty
link. -/
theorem merged_items_links_nonempty :
    (∀ l : List NewsItem, search_naver_news (some ⟨some l⟩) = l) ∧
    (∀ (apiResults : List (Option ApiBody)) (x : NewsItem),
       x ∈ search_related_news apiResults → x.link ≠ "") ∧
    (∀ (seen : List String) (l : List NewsItem) (x : NewsItem),
       x ∈ dedupByLink seen l → x.link ≠ "") ∧
    (∀ (newsApi blogApi : List (Option ApiBody)) (x : NewsItem),
       x ∈ (search_market_trends newsApi blogApi).latest_news → x.link ≠ "") := by
  refine ⟨fun l => rfl, ?_, ?_, ?_⟩
  · intro apiResults x hx
    exact (dedupByLink_mem_link [] _ _ (List.mem_of_mem_take hx)).2
  · intro seen l x hx
    exact (dedupByLink_mem_link seen _ _ hx).2
  · intro newsApi blogApi x hx
    exact (dedupByLink_mem_link [] _ _ (List.mem_of_mem_take hx)).2

def emptyLinkItem : NewsItem := ⟨"no link", "dropped", "", "p0"⟩

def keptItem : NewsItem := ⟨"has link", "kept", "http://kept", "p1"⟩

def exApiC10 : List (Option ApiBody) := [some ⟨some [emptyLinkItem, keptItem]⟩]

/-- C10 witness: on a query result containing an empty-link item, the item
that survives into the merged output has a non-empty link (and the
empty-link item is not in the output). -/
theorem merged_items_links_nonempty_witness :
    keptItem.link ≠ "" ∧ search_related_news exApiC10 = [keptItem] :=
  ⟨merged_items_links_nonempty.2.1 exApiC10 keptItem (by decide), by decide⟩

/-- Modelled from the spec for comparison: "final merged set is sorted by
`publishedAt` descending" under lexical string comparison — every earlier
item's `pubDate` is not lexically below any later item's. -/
def sortedByPubDateDesc (l : List NewsItem) : Prop :=
  l.Pairwise (fun a b => ¬ a.pubDate < b.pubDate)

def cexOlder : NewsItem := ⟨"older", "d", "http://older", "2024-01-01"⟩

def cexNewer : NewsItem := ⟨"newer", "d", "http://newer", "2025-01-01"⟩

def cexApiC2 : List (Option ApiBody) := [some ⟨some [cexOlder]⟩, some ⟨some [cexNewer]⟩]

/-- C2 counterexample: `search_related_news` applies no sort to the merged
list — with a first query returning an older item and a second returning a
newer one, the merged output keeps concatenation order and is not sorted by
`pubDate` descending. -/
theorem search_related_news_not_sorted_cex :
    ¬ sortedByPubDateDesc (search_related_news cexApiC2) := by
  intro h
  have hout : search_related_news cexApiC2 = [cexOlder, cexNewer] := by decide
  rw [sortedByPubDateDesc, hout] at h
  have hrel := (List.pairwise_cons.mp h).1 cexNewer (List.mem_cons_self _ _)
  refine hrel (String.lt_iff_toList_lt.mpr ?_)
  decide

/-- C2 amended: the merged deduplicated list is returned in first-occurrence
concatenation order — a sublist of the concatenated per-query results, with
no sort by `publishedAt` applied — and the cap of at most 15 items is
applied after deduplication (if at most 15 distinct links survive, nothing
is dropped), so the earliest-seen items are the ones retained. -/
theorem search_related_news_order_and_cap (apiResults : List (Option ApiBody)) :
    (search_related_news apiResults).Sublist ((apiResults.map search_naver_news).flatten) ∧
    (search_related_news apiResults).length ≤ 15 ∧
    ((dedupByLink [] ((apiResults.map search_naver_news).flatten)).length ≤ 15 →
      search_related_news apiResults
        = dedupByLink [] ((apiResults.map search_naver_news).flatten)) := by
  refine ⟨?_, ?_, ?_⟩
  · exact (List.take_sublist _ _).trans (dedupByLink_sublist [] _)
  · exact List.length_take_le _ _
  · intro hlen
    show (dedupByLink [] ((apiResults.map search_naver_news).flatten)).take 15 = _
    exact List.take_of_length_le hlen

/-- C2 amended witness: on the two-query example, the merged list is a
sublist of the concatenation and, having only two distinct links, is kept
whole by the cap. -/
theorem search_related_news_order_and_cap_witness :
    (search_related_news cexApiC2).Sublist ((cexApiC2.map search_naver_news).flatten) ∧
    search_related_news cexApiC2
      = dedupByLink [] ((cexApiC2.map search_naver_news).flatten) :=
  ⟨(search_related_news_order_and_cap cexApiC2).1,
   (search_related_news_order_and_cap cexApiC2).2.2 (by decide)⟩

/-- If every per-query request failed (the retrying client returned `None`),
the concatenated news lists are empty. -/
theorem flatten_search_naver_news_eq_nil (api : List (Option ApiBody))
    (h : ∀ r ∈ api, r = none) : (api.map search_naver_news).flatten = [] := by
  induction api with
  | nil => rfl
  | cons a rest ih =>
    have ha := h a (List.mem_cons_self _ _)
    subst ha
    simpa [search_naver_news] using ih fun r hr => h r (List.mem_cons_of_mem _ hr)

/-- Blog variant of `flatten_search_naver_news_eq_nil`. -/
theorem flatten_search_naver_blog_eq_nil (api : List (Option ApiBody))
    (h : ∀ r ∈ api, r = none) : (api.map search_naver_blog).flatten = [] := by
  induction api with
  | nil => rfl
  | cons a rest ih =>
    have ha := h a (List.mem_cons_self _ _)
    subst ha
    simpa [search_naver_blog] using ih fun r hr => h r (List.mem_cons_of_mem _ hr)

/-- C7 counterexample: when every per-query request fails, the report of
`search_market_trends` contains zero items but carries no reason field —
the `'error'` key (modelled by the `error` field) is absent (`none`), and
`search_related_news` returns a bare empty list with no reason at all,
contrary to the claim that an explicit reason field accompanies the empty
result. -/
theorem all_fail_report_lacks_reason_cex :
    (search_market_trends [none, none, none] [none, none, none]).error = none ∧
    (search_market_trends [none, none, none] [none, none, none]).news_count = 0 ∧
    (search_market_trends [none, none, none] [none, none, none]).blog_count = 0 ∧
    search_related_news [none, none, none] = [] := by
  refine ⟨rfl, by decide, by decide, by decide⟩

/-- C7 amended: if every per-query request fails, the aggregation
operations return a report with zero items and never raise — but silently:
the `error` field is absent (`none`); a reason field appears only when an
exception reaches the outer handler, which a failed request never causes. -/
theorem all_queries_fail_empty_report (newsApi blogApi : List (Option ApiBody))
    (hn : ∀ r ∈ newsApi, r = none) (hb : ∀ r ∈ blogApi, r = none) :
    (search_market_trends newsApi blogApi).news_count = 0 ∧
    (search_market_trends newsApi blogApi).blog_count = 0 ∧
    (search_market_trends newsApi blogApi).latest_news = [] ∧
    (search_market_trends newsApi blogApi).market_keywords = [] ∧
    (search_market_trends newsApi blogApi).error = none ∧
    search_related_news newsApi = [] := by
  have h1 := flatten_search_naver_news_eq_nil newsApi hn
  have h2 := flatten_search_naver_blog_eq_nil blogApi hb
  unfold search_market_trends search_related_news
  rw [h1, h2]
  exact ⟨rfl, rfl, rfl, rfl, rfl, rfl⟩

/-- C7 amended witness: a concrete all-failing run yields the silent empty
report. -/
theorem all_queries_fail_empty_report_witness :
    (search_market_trends [none] [none]).news_count = 0 ∧
    (search_market_trends [none] [none]).blog_count = 0 ∧
    (search_market_trends [none] [none]).latest_news = [] ∧
    (search_market_trends [none] [none]).market_keywords = [] ∧
    (search_market_trends [none] [none]).error = none ∧
    search_related_news [none] = [] :=
  all_queries_fail_empty_report [none] [none] (by decide) (by decide)

/-! ### Claims about the retrying client -/

/-- C3: against an endpoint whose every physical attempt yields a non-200,
non-429 HTTP status, `_make_api_request` performs exactly `max_retries` (3)
attempts and returns `None` — never a parsed body, and (being a total
function here) never an escaping exception. -/
theorem make_api_request_exhausts_on_http_error (endpoint : Nat → Attempt)
    (h : ∀ i < max_retries, ∃ s b, endpoint i = .response s b ∧ s ≠ 200 ∧ s ≠ 429) :
    (make_api_request endpoint).1 = none ∧ (make_api_request endpoint).2.1 = max_retries := by
  obtain ⟨s0, b0, he0, hs0, hs0'⟩ := h 0 (by decide)
  obtain ⟨s1, b1, he1, hs1, hs1'⟩ := h 1 (by decide)
  obtain ⟨s2, b2, he2, hs2, hs2'⟩ := h 2 (by decide)
  have hr : List.range max_retries = [0, 1, 2] := by decide
  unfold make_api_request
  rw [hr]
  simp only [make_api_request_loop, he0, he1, he2, if_neg hs0, if_neg hs0', if_neg hs1,
    if_neg hs1', if_neg hs2, if_neg hs2', max_retries]
  norm_num

def ep500 : Nat → Attempt := fun _ => .response 500 ⟨none⟩

/-- C3 witness: an endpoint that always returns HTTP 500 exhausts all three
attempts and yields `None`. -/
theorem make_api_request_exhausts_on_http_error_witness :
    (make_api_request ep500).1 = none ∧ (make_api_request ep500).2.1 = max_retries :=
  make_api_request_exhausts_on_http_error ep500
    (fun _ _ => ⟨500, ⟨none⟩, rfl, by decide, by decide⟩)

/-- C4: if the endpoint returns HTTP 429 on the first two attempts and
HTTP 200 on the third, `_make_api_request` returns the parsed body of the
third attempt after exactly three attempts, and before each retry following
a 429 it sleeps `min(min_delay * backoff_factor ^ attempt, 30.0)` seconds. -/
theorem make_api_request_retry_then_succeed (endpoint : Nat → Attempt) (b0 b1 body : ApiBody)
    (h0 : endpoint 0 = .response 429 b0) (h1 : endpoint 1 = .response 429 b1)
    (h2 : endpoint 2 = .response 200 body) :
    (make_api_request endpoint).1 = some body ∧
    (make_api_request endpoint).2.1 = max_retries ∧
    (make_api_request endpoint).2.2
      = [min (min_delay * backoff_factor ^ 0) 30, min (min_delay * backoff_factor ^ 1) 30] := by
  have hr : List.range max_retries = [0, 1, 2] := by decide
  unfold make_api_request
  rw [hr]
  simp only [make_api_request_loop, h0, h1, h2]
  norm_num [retryDelay429, max_retries]

def ep429twice : Nat → Attempt := fun i =>
  if i < 2 then .response 429 ⟨none⟩ else .response 200 ⟨some []⟩

/-- C4 witness: a concrete 429, 429, 200 endpoint succeeds on the third
attempt with the capped exponential back-off sleeps. -/
theorem make_api_request_retry_then_succeed_witness :
    (make_api_request ep429twice).1 = some ⟨some []⟩ ∧
    (make_api_request ep429twice).2.1 = max_retries ∧
    (make_api_request ep429twice).2.2
      = [min (min_delay * backoff_factor ^ 0) 30, min (min_delay * backoff_factor ^ 1) 30] :=
  make_api_request_retry_then_succeed ep429twice ⟨none⟩ ⟨none⟩ ⟨some []⟩ rfl rfl rfl

/-! ### Claims about the rate limiter -/

/-- Both branches of `_wait_for_rate_limit` record the completion time as
the new `last_call_time` (`self.last_call_time = time.time()` runs after
any sleeping). -/
theorem wait_for_rate_limit_sets_last_call (s : RateState) (now jitter : ℚ) :
    (wait_for_rate_limit s now jitter).1 = ⟨(wait_for_rate_limit s now jitter).2⟩ := by
  unfold wait_for_rate_limit
  dsimp only
  split <;> rfl

/-- A single acquire completes at least `min_delay` after the previously
recorded call time, provided the clock did not run backwards and the jitter
is non-negative. -/
theorem wait_for_rate_limit_spacing (c now jitter : ℚ) (hj : 0 ≤ jitter) :
    min_delay ≤ (wait_for_rate_limit ⟨c⟩ now jitter).2 - c := by
  unfold wait_for_rate_limit
  dsimp only
  split
  next h => dsimp only; linarith
  next h => dsimp only; linarith [not_lt.mp h]

/-- C9: over any back-to-back run of acquire calls (idle times and jitters
non-negative), consecutive completions are spaced by at least `min_delay`
(0.5 s), starting from the previously recorded call time; and every call
records the completion time as the new `last_call_time`. -/
theorem rate_limiter_min_spacing (c : ℚ) (calls : List (ℚ × ℚ))
    (h : ∀ p ∈ calls, 0 ≤ p.1 ∧ 0 ≤ p.2) :
    List.Chain (fun a b => min_delay ≤ b - a) c (run_rate_limiter ⟨c⟩ c calls) ∧
    ∀ (s : RateState) (now jitter : ℚ),
      ((wait_for_rate_limit s now jitter).1).last_call_time
        = (wait_for_rate_limit s now jitter).2 := by
  refine ⟨?_, fun s now jitter => by rw [wait_for_rate_limit_sets_last_call]⟩
  induction calls generalizing c with
  | nil => exact List.Chain.nil
  | cons p rest ih =>
    obtain ⟨idle, jitter⟩ := p
    have hp := h (idle, jitter) (List.mem_cons_self _ _)
    have hrest : ∀ q ∈ rest, 0 ≤ q.1 ∧ 0 ≤ q.2 :=
      fun q hq => h q (List.mem_cons_of_mem _ hq)
    simp only [run_rate_limiter]
    rw [wait_for_rate_limit_sets_last_call]
    exact List.Chain.cons
      (by
        have := wait_for_rate_limit_spacing c (c + idle) jitter hp.2
        linarith)
      (ih _ hrest)

/-- C9 witness: a concrete back-to-back run (re-entry after 0 s then after
0.1 s, jitter 0.2 s each time) keeps consecutive completions at least
`min_delay` apart. -/
theorem rate_limiter_min_spacing_witness :
    List.Chain (fun a b => min_delay ≤ b - a) 0
      (run_rate_limiter ⟨0⟩ 0 [(0, 1/5), (1/10, 1/5)]) :=
  (rate_limiter_min_spacing 0 [(0, 1/5), (1/10, 1/5)] (by norm_num)).1

/-! ### Claims about the scheduler -/

/-- `_execute_scheduled_task` returns normally whatever the task does: a
raising task is caught by its `except Exception` handler, and no scheduler
field is assigned. -/
theorem execute_scheduled_task_ok (st : SchedulerState) (task : Except String Unit) :
    execute_scheduled_task st task = .ok (st, true) := by
  cases task <;> rfl

/-- Characterization of one loop iteration: the task fires exactly when the
scheduler is enabled and `_should_execute` holds, in which case
`last_execution_date` is set to the current date; the poll wait is always
the normal 30 seconds (task exceptions never reach the loop's own
handler). -/
theorem scheduler_loop_step_eq (st : SchedulerState) (d : Nat) (m : TimeOfDay)
    (task : Except String Unit) :
    scheduler_loop_step st d m task =
      if st.is_enabled ∧ should_execute st m d then
        ({ st with last_execution_date := some d }, true, 30)
      else
        (st, false, 30) := by
  unfold scheduler_loop_step
  rw [execute_scheduled_task_ok]
  by_cases h1 : st.is_enabled
  · by_cases h2 : should_execute st m d
    · rw [if_pos h1, if_pos h2, if_pos ⟨h1, h2⟩]
    · rw [if_pos h1, if_neg h2, if_neg (fun hc => h2 hc.2)]
  · rw [if_neg h1, if_neg (fun hc => h1 hc.1)]

/-- While `last_execution_date = some d` and the clock's dates stay at or
above `d`, all later automatic firings happen on strictly increasing dates
strictly greater than `d`. -/
theorem scheduler_loop_fires_after (task : Except String Unit) :
    ∀ (ticks : List (Nat × TimeOfDay)) (d : Nat) (st : SchedulerState),
      st.last_execution_date = some d →
      ticks.Pairwise (fun a b => a.1 ≤ b.1) →
      (∀ t ∈ ticks, d ≤ t.1) →
      (scheduler_loop st task ticks).2.Pairwise (· < ·) ∧
      ∀ f ∈ (scheduler_loop st task ticks).2, d < f := by
  intro ticks
  induction ticks with
  | nil =>
    intro d st _ _ _
    exact ⟨List.Pairwise.nil, by simp [scheduler_loop]⟩
  | cons t rest ih =>
    intro d st hlast hpw hall
    obtain ⟨d1, m1⟩ := t
    have hrest_pw := (List.pairwise_cons.mp hpw).2
    simp only [scheduler_loop, scheduler_loop_step_eq]
    by_cases hfire : st.is_enabled ∧ should_execute st m1 d1
    · rw [if_pos hfire]
      have hne : d ≠ d1 := by
        intro he
        subst he
        have hse := hfire.2
        rw [should_execute, if_pos hlast] at hse
        exact Bool.false_ne_true hse
      have hdlt : d < d1 :=
        lt_of_le_of_ne (hall (d1, m1) (List.mem_cons_self _ _)) hne
      have hrest_ge : ∀ t ∈ rest, d1 ≤ t.1 :=
        fun t ht => (List.pairwise_cons.mp hpw).1 t ht
      have hih := ih d1 { st with last_execution_date := some d1 } rfl hrest_pw hrest_ge
      refine ⟨List.Pairwise.cons (fun f hf => hih.2 f hf) hih.1, ?_⟩
      intro f hf
      rcases List.mem_cons.mp hf with rfl | hf'
      · exact hdlt
      · exact hdlt.trans (hih.2 f hf')
    · rw [if_neg hfire]
      exact ih d st hlast hrest_pw fun t ht => hall t (List.mem_cons_of_mem _ ht)

/-- From any starting state, monotone clock dates make the list of automatic
firing dates strictly increasing. -/
theorem scheduler_loop_fires_sorted (task : Except String Unit) :
    ∀ (ticks : List (Nat × TimeOfDay)) (st : SchedulerState),
      ticks.Pairwise (fun a b => a.1 ≤ b.1) →
      (scheduler_loop st task ticks).2.Pairwise (· < ·) := by
  intro ticks
  induction ticks with
  | nil =>
    intro st _
    exact List.Pairwise.nil
  | cons t rest ih =>
    intro st hpw
    obtain ⟨d1, m1⟩ := t
    have hrest_pw := (List.pairwise_cons.mp hpw).2
    simp only [scheduler_loop, scheduler_loop_step_eq]
    by_cases hfire : st.is_enabled ∧ should_execute st m1 d1
    · rw [if_pos hfire]
      have hrest_ge : ∀ t ∈ rest, d1 ≤ t.1 :=
        fun t ht => (List.pairwise_cons.mp hpw).1 t ht
      have hA := scheduler_loop_fires_after task rest d1
        { st with last_execution_date := some d1 } rfl hrest_pw hrest_ge
      exact List.Pairwise.cons (fun f hf => hA.2 f hf) hA.1
    · rw [if_neg hfire]
      exact ih st hrest_pw

/-- C1: over any polling run with `is_enabled` true and monotone clock
dates, the task fires automatically at most once per calendar date;
`_should_execute` returns false whenever `last_execution_date` equals the
current date; and it can only return true when the current minute-of-day is
within 5 minutes of the target minute-of-day. -/
theorem scheduler_at_most_once_per_date (st : SchedulerState) (task : Except String Unit)
    (ticks : List (Nat × TimeOfDay)) (hen : st.is_enabled = true)
    (hmono : ticks.Pairwise (fun a b => a.1 ≤ b.1)) :
    (∀ d : Nat, (scheduler_loop st task ticks).2.count d ≤ 1) ∧
    (∀ (st' : SchedulerState) (m : TimeOfDay) (d : Nat),
       st'.last_execution_date = some d → should_execute st' m d = false) ∧
    (∀ (st' : SchedulerState) (m : TimeOfDay) (d : Nat), should_execute st' m d = true →
       ((minutesOfDay m : Int) - (minutesOfDay st'.target_time : Int)).natAbs ≤ 5) := by
  refine ⟨?_, ?_, ?_⟩
  · have hs := scheduler_loop_fires_sorted task ticks st hmono
    have hnodup : (scheduler_loop st task ticks).2.Nodup :=
      hs.imp fun hab => ne_of_lt hab
    exact fun d => List.nodup_iff_count_le_one.mp hnodup d
  · intro st' m d hlast
    rw [should_execute, if_pos hlast]
  · intro st' m d hse
    by_cases hl : st'.last_execution_date = some d
    · rw [should_execute, if_pos hl] at hse
      exact absurd hse Bool.false_ne_true
    · rw [should_execute, if_neg hl] at hse
      exact of_decide_eq_true hse

/-- C1 witness: the spec's scenario — target 09:00, the clock reaches 09:02
on day 7 (fires) and later 09:04 on the same day (does not fire): the task
runs exactly once that day. -/
theorem scheduler_at_most_once_per_date_witness :
    (scheduler_loop ⟨true, true, ⟨9, 0⟩, none⟩ (Except.ok ())
      [(7, ⟨9, 2⟩), (7, ⟨9, 4⟩)]).2.count 7 ≤ 1 ∧
    (scheduler_loop ⟨true, true, ⟨9, 0⟩, none⟩ (Except.ok ())
      [(7, ⟨9, 2⟩), (7, ⟨9, 4⟩)]).2 = [7] :=
  ⟨(scheduler_at_most_once_per_date ⟨true, true, ⟨9, 0⟩, none⟩ (Except.ok ())
      [(7, ⟨9, 2⟩), (7, ⟨9, 4⟩)] rfl (by decide)).1 7,
   by decide⟩

/-- C6 counterexample: when the due task raises, the loop's next pause is
the normal 30-second poll wait, not a 60-second cooldown — the task's
exception is swallowed inside `_execute_scheduled_task`, so the loop-level
handler (the only place that sleeps 60 s) is never reached. -/
theorem task_failure_normal_wait_cex :
    (scheduler_loop_step ⟨true, true, ⟨9, 0⟩, none⟩ 7 ⟨9, 2⟩ (Except.error "task raised")).2.1
      = true ∧
    (scheduler_loop_step ⟨true, true, ⟨9, 0⟩, none⟩ 7 ⟨9, 2⟩ (Except.error "task raised")).2.2
      = 30 ∧
    (30 : Nat) ≠ 60 := by
  refine ⟨by decide, by decide, by decide⟩

/-- C6 amended: an exception raised by the task is caught and logged inside
`_execute_scheduled_task`; the polling loop neither terminates nor sees the
exception, and after such a failure it proceeds exactly as after a
successful run, pausing the normal 30 seconds before the next poll.  The
60-second cooldown is taken only for exceptions raised in the loop body
outside `_execute_scheduled_task`, which a task failure never triggers. -/
theorem scheduler_task_exception_nonfatal (st : SchedulerState) (d : Nat) (m : TimeOfDay)
    (e : String) :
    execute_scheduled_task st (Except.error e) = Except.ok (st, true) ∧
    (scheduler_loop_step st d m (Except.error e)).2.2 = 30 ∧
    scheduler_loop_step st d m (Except.error e) = scheduler_loop_step st d m (Except.ok ()) := by
  refine ⟨rfl, ?_, ?_⟩
  · rw [scheduler_loop_step_eq]
    split <;> rfl
  · rw [scheduler_loop_step_eq, scheduler_loop_step_eq]

/-- C8: `force_execution` invokes the task immediately for every scheduler
state (any `is_enabled`, any `last_execution_date`), returns normally, and
leaves every scheduler field — in particular `last_execution_date` —
unchanged, so the automatic trigger's behaviour later the same day is
unaffected. -/
theorem force_execution_frame (st : SchedulerState) (task : Except String Unit)
    (m : TimeOfDay) (d : Nat) :
    force_execution st task = Except.ok (st, true) ∧
    ∀ (st' : SchedulerState) (invoked : Bool),
      force_execution st task = Except.ok (st', invoked) →
      st'.last_execution_date = st.last_execution_date ∧
      st'.is_enabled = st.is_enabled ∧
      st'.is_running = st.is_running ∧
      st'.target_time = st.target_time ∧
      should_execute st' m d = should_execute st m d := by
  have h : force_execution st task = Except.ok (st, true) := by
    unfold force_execution
    exact execute_scheduled_task_ok st task
  refine ⟨h, ?_⟩
  intro st' invoked he
  rw [h] at he
  have hst : st' = st := by
    injection he with hp
    injection hp with ha hb
    exact ha.symm
  subst hst
  exact ⟨rfl, rfl, rfl, rfl, rfl⟩

/-- C8 witness: forcing execution on a disabled scheduler that already ran
on day 7 still invokes the task and leaves the state untouched. -/
theorem force_execution_frame_witness :
    force_execution ⟨true, false, ⟨9, 0⟩, some 7⟩ (Except.error "boom")
      = Except.ok ((⟨true, false, ⟨9, 0⟩, some 7⟩ : SchedulerState), true) ∧
    (⟨true, false, ⟨9, 0⟩, some 7⟩ : SchedulerState).last_execution_date
      = (⟨true, false, ⟨9, 0⟩, some 7⟩ : SchedulerState).last_execution_date := by
  have h := force_execution_frame ⟨true, false, ⟨9, 0⟩, some 7⟩ (Except.error "boom") ⟨9, 2⟩ 7
  exact ⟨h.1, (h.2 ⟨true, false, ⟨9, 0⟩, some 7⟩ true h.1).1⟩

end SubscriptionSystem
